import Mathlib

set_option autoImplicit false

/-!
# Shallow embedding of the SeisFlows session-state core (`seisflows/config.py`)

This file embeds the component registry + checkpoint/resume subsystem of
SeisFlows: the `NAMES` role constants, the `save` / `load` / `flush`
session-state operations over `sys.modules` and a filesystem model, the
`custom_import` component resolver, and the `_pickle_method` /
`_unpickle_method` serialization adapter registered with `copyreg`.

Python strings are embedded as `List Char` (the relevant identifiers are
ASCII); Python's `str.title`, `str.isupper`, `str.upper`, `str.replace("_","")`
are embedded character by character following CPython's documented semantics
for ASCII input.
-/

namespace Seisflows

abbrev Str := List Char

/-! ## Python string primitives (ASCII) -/

/-- Python's notion of a cased character, restricted to ASCII letters. -/
def isCased (c : Char) : Bool := c.isAlpha

/-- Embedding of Python `str.upper()`. -/
def pyUpper (s : Str) : Str := s.map Char.toUpper

/-- Embedding of Python `str.isupper()`: true iff there is at least one cased
character and every cased character is uppercase. -/
def pyIsUpper (s : Str) : Bool :=
  s.any isCased && s.all (fun c => !isCased c || c.isUpper)

/-- Worker for `pyTitle`; the `Bool` records whether the previous character
was cased.  A cased character after a non-cased (or initial) position is
titlecased, a cased character after a cased one is lowercased, non-cased
characters pass through. -/
def pyTitleAux : Bool → Str → Str
  | _, [] => []
  | prevCased, c :: cs =>
    (if isCased c then (if prevCased then c.toLower else c.toUpper) else c)
      :: pyTitleAux (isCased c) cs

/-- Embedding of Python `str.title()`. -/
def pyTitle (s : Str) : Str := pyTitleAux false s

/-- Embedding of Python `str.replace("_", "")`. -/
def removeUnderscores (s : Str) : Str := s.filter (fun c => c ≠ '_')

/-! ## Classes, function objects and picklable values

The serialization adapter (`_pickle_method` / `_unpickle_method`) works with
bound methods: a function object carrying the instance it is bound to
(`im_self`), its function (`im_func`) and the class it was bound through
(`im_class`).  Classes are identified abstractly; a `ClassEnv` gives each
class its method-resolution order (`cls.mro()`, starting with the class
itself) and its `__dict__` of defined functions. -/

abbrev ClassId := Nat

/-- A Python function object: its `__name__` plus an identity tag telling
apart distinct function objects sharing a name. -/
structure FuncObj where
  fname : Str
  tag : Nat
deriving DecidableEq

/-- Method-resolution orders and per-class `__dict__` method tables. -/
structure ClassEnv where
  mro : ClassId → List ClassId
  decls : ClassId → Str → Option FuncObj

mutual
/-- A picklable Python value: primitives, class instances carrying an
attribute dictionary, and bound methods (`types.MethodType`). -/
inductive PVal where
  | vNone
  | vBool (b : Bool)
  | vInt (n : Int)
  | vStr (s : Str)
  | vObj (cls : ClassId) (attrs : Attrs)
  | vMethod (func : FuncObj) (self : PVal) (imClass : ClassId)

/-- The attribute dictionary of an instance. -/
inductive Attrs where
  | anil
  | acons (name : Str) (val : PVal) (rest : Attrs)
end

/-- The attribute set of a Python 3 bound method (`types.MethodType`): only
`__func__` and `__self__` exist.  The Python 2 names `im_func`, `im_self`
and `im_class` read by `_pickle_method` are not among them, so reading them
raises `AttributeError`. -/
def methodHasAttr (name : Str) : Bool :=
  decide (name = "__func__".data) || decide (name = "__self__".data)

/-- Embedding of `_pickle_method` (config.py lines 284-287) as executed by
the Python 3 interpreter this file targets (the file is `python3` and uses
f-strings): its first expression `method.im_func` is an attribute read that
a Python 3 bound method cannot satisfy (`methodHasAttr "im_func" = false`),
so the function raises `AttributeError` (`none`) before the reduce tuple
`(func_name, obj, cls)` is ever built.  The `some` branch is the Python 2
behaviour the code was written for; it is unreachable here.  Values other
than bound methods are never dispatched to this reducer. -/
def pickle_method : PVal → Option (Str × PVal × ClassId)
  | .vMethod f s c =>
    if methodHasAttr "im_func".data then some (f.fname, s, c) else none
  | _ => none

/-- Scan a method-resolution order for the first class whose `__dict__`
defines `funcName` (the `for cls in cls.mro()` loop of `_unpickle_method`);
returns the function found together with the class defining it. -/
def findInMRO (env : ClassEnv) (funcName : Str) : List ClassId → Option (FuncObj × ClassId)
  | [] => none
  | c :: rest =>
    match env.decls c funcName with
    | some f => some (f, c)
    | none => findInMRO env funcName rest

/-- Embedding of `_unpickle_method`: walk `cls.mro()`, and on the first class
whose `__dict__` holds `func_name`, re-bind the found function to `obj` via
`func.__get__(obj, cls)`.  When no class in the chain defines the name the
Python code raises (the loop leaves `func` unassigned), embedded as `none`. -/
def unpickle_method (env : ClassEnv) (funcName : Str) (obj : PVal) (cls : ClassId) :
    Option PVal :=
  match findInMRO env funcName (env.mro cls) with
  | some (f, foundCls) => some (.vMethod f obj foundCls)
  | none => none

/-! ## pickle.dump / pickle.load over object graphs

`config.py` installs the adapter process-wide via
`copyreg.pickle(types.MethodType, _pickle_method, _unpickle_method)`, so a
pickled object graph preserves all structure except bound methods, which are
stored as their reduce tuples and reconstructed through `_unpickle_method`. -/

mutual
/-- Serialized form of a `PVal` as produced by `pickle.dump` with the
adapter installed: bound methods become reduce tuples. -/
inductive PData where
  | dNone
  | dBool (b : Bool)
  | dInt (n : Int)
  | dStr (s : Str)
  | dObj (cls : ClassId) (attrs : PAttrs)
  | dReduce (funcName : Str) (objData : PData) (cls : ClassId)

/-- Serialized attribute dictionary. -/
inductive PAttrs where
  | dnil
  | dcons (name : Str) (val : PData) (rest : PAttrs)
end

mutual
/-- `pickle.dump` on an object graph, with the adapter registered
process-wide by `copyreg.pickle(types.MethodType, _pickle_method, ...)`:
every bound method in the graph is dispatched to `_pickle_method`, which
under Python 3 raises `AttributeError` (see `pickle_method`), so pickling
any graph containing a bound method fails (`none`); all other values
serialize structurally.  A successful reduce tuple — the unreachable
Python 2 path — would serialize as `dReduce` around the pickled `im_self`. -/
def pickleEncV : PVal → Option PData
  | .vNone => some .dNone
  | .vBool b => some (.dBool b)
  | .vInt n => some (.dInt n)
  | .vStr s => some (.dStr s)
  | .vObj cls attrs =>
    match pickleEncA attrs with
    | some a => some (.dObj cls a)
    | none => none
  | .vMethod f s c =>
    match pickle_method (.vMethod f s c) with
    | some (nm, _, cl) =>
      match pickleEncV s with
      | some od => some (.dReduce nm od cl)
      | none => none
    | none => none

/-- `pickle.dump` on an attribute dictionary. -/
def pickleEncA : Attrs → Option PAttrs
  | .anil => some .dnil
  | .acons n v rest =>
    match pickleEncV v, pickleEncA rest with
    | some v', some rest' => some (.dcons n v' rest')
    | _, _ => none
end

mutual
/-- `pickle.load`: rebuild the object graph, passing every stored reduce
tuple through `_unpickle_method`; fails if reconstruction fails anywhere. -/
def pickleDecV (env : ClassEnv) : PData → Option PVal
  | .dNone => some .vNone
  | .dBool b => some (.vBool b)
  | .dInt n => some (.vInt n)
  | .dStr s => some (.vStr s)
  | .dObj cls attrs =>
    match pickleDecA env attrs with
    | some a => some (.vObj cls a)
    | none => none
  | .dReduce funcName objData cls =>
    match pickleDecV env objData with
    | some obj => unpickle_method env funcName obj cls
    | none => none

/-- `pickle.load` on a serialized attribute dictionary. -/
def pickleDecA (env : ClassEnv) : PAttrs → Option Attrs
  | .dnil => some .anil
  | .dcons n v rest =>
    match pickleDecV env v, pickleDecA env rest with
    | some v', some rest' => some (.acons n v' rest')
    | _, _ => none
end

mutual
/-- The value contains no bound method anywhere in its state — the only
values the broken adapter lets `pickle.dump` serialize under Python 3. -/
def methodFreeV : PVal → Bool
  | .vNone => true
  | .vBool _ => true
  | .vInt _ => true
  | .vStr _ => true
  | .vObj _ attrs => methodFreeA attrs
  | .vMethod _ _ _ => false

/-- `methodFreeV` over an attribute dictionary. -/
def methodFreeA : Attrs → Bool
  | .anil => true
  | .acons _ v rest => methodFreeV v && methodFreeA rest
end

/-! ## Configuration snapshot values -/

/-- A JSON scalar, as held by the parameters / paths configuration mappings
(the spec describes them as scalar/flag settings and filesystem locations). -/
inductive JScalar where
  | jNull
  | jBool (b : Bool)
  | jInt (n : Int)
  | jStr (s : Str)
deriving DecidableEq

/-- A configuration mapping: association list from key to scalar value. -/
abbrev JDict := List (Str × JScalar)

/-- Association-list lookup with unique keys, first binding wins (a Python
dict, or `sys.modules`, restricted to the keys we model). -/
def alookup {κ α : Type} [DecidableEq κ] : List (κ × α) → κ → Option α
  | [], _ => none
  | (k, v) :: rest, key => if k = key then some v else alookup rest key

/-- Lexicographic (code-point) string comparison, Python's `<=` used by
`sorted` on the keys when `sort_keys=True`. -/
def keyLE : Str → Str → Bool
  | [], _ => true
  | _ :: _, [] => false
  | a :: as, b :: bs => if a = b then keyLE as bs else decide (a < b)

/-- Insert a pair into a key-sorted association list. -/
def insertSorted (p : Str × JScalar) : JDict → JDict
  | [] => [p]
  | q :: rest => if keyLE p.1 q.1 then p :: q :: rest else q :: insertSorted p rest

/-- Key-sort an association list, as `json.dump(..., sort_keys=True)` sorts
the keys of the mapping being written. -/
def sortPairs : JDict → JDict
  | [] => []
  | p :: rest => insertSorted p (sortPairs rest)

/-- The keys of an association list are in ascending lexicographic order. -/
def keysSorted : JDict → Bool
  | [] => true
  | [_] => true
  | p :: q :: rest => keyLE p.1 q.1 && keysSorted (q :: rest)

/-! ## The session state: the relevant slice of `sys.modules` -/

/-- A `sys.modules` entry of the session: the two configuration mappings are
JSON-able `Dict`s, the six role entries hold component instances. -/
inductive Entry where
  | jsonE (d : JDict)
  | objE (v : PVal)

/-- The relevant slice of `sys.modules`: module name to entry, unique keys. -/
abbrev SysModules := List (Str × Entry)

/-- `sys.modules[n]`, `none` when the key is absent (Python `KeyError`). -/
def lookupMod (st : SysModules) (n : Str) : Option Entry := alookup st n

/-- `del sys.modules[n]` (no-op when the key is absent). -/
def delMod (st : SysModules) (n : Str) : SysModules :=
  st.filter (fun p => p.1 ≠ n)

/-- `sys.modules[n] = e`. -/
def setMod (st : SysModules) (n : Str) (e : Entry) : SysModules :=
  (n, e) :: delMod st n

/-- The hardwired, order-sensitive role names of `config.NAMES`. -/
def NAMES : List Str :=
  ["system".data, "preprocess".data, "solver".data,
   "postprocess".data, "optimize".data, "workflow".data]

/-- `f"seisflows_{name}"`: the `sys.modules` key of a role. -/
def modName (role : Str) : Str := "seisflows_".data ++ role

/-- The `sys.modules` key of the parameters mapping. -/
def paramsName : Str := "seisflows_parameters".data

/-- The `sys.modules` key of the paths mapping. -/
def pathsName : Str := "seisflows_paths".data

/-- `f"{name}.json"`: file name of a configuration mapping. -/
def jsonFileName (n : Str) : Str := n ++ ".json".data

/-- `f"seisflows_{name}.p"`: pickle file name of a role. -/
def pickleFileName (role : Str) : Str := modName role ++ ".p".data

/-- The `sys.modules` keys deleted by `flush`. -/
def roleModNames : List Str := NAMES.map modName

/-! ## The filesystem model -/

/-- Content of a checkpoint file: either a structured-text JSON file
(recording the indentation it was written with) or a binary pickle file. -/
inductive FileContent where
  | jsonC (d : JDict) (indent : Nat)
  | pickleC (d : PData)

/-- A filesystem: a set of existing directories and a mapping from
(directory, file name) to file content. -/
structure FS where
  dirs : List Str
  files : List ((Str × Str) × FileContent)

/-- Read a file, `none` when absent (Python `FileNotFoundError`). -/
def fsLookup (fs : FS) (dir fname : Str) : Option FileContent :=
  alookup fs.files (dir, fname)

/-- Write (create or overwrite) a file. -/
def setFile (fs : FS) (dir fname : Str) (c : FileContent) : FS :=
  { fs with files := ((dir, fname), c) :: fs.files.filter (fun p => p.1 ≠ (dir, fname)) }

/-- Modelled from the spec: `unix.mkdir` is not under `src/`; per the spec
(`save` "creates `directory` if absent") it creates the target directory.
The `os.path.exists` guard is the `dirs` membership test. -/
def mkdirIfAbsent (fs : FS) (dir : Str) : FS :=
  if dir ∈ fs.dirs then fs else { fs with dirs := dir :: fs.dirs }

/-- `os.path.abspath`: paths are modelled as already absolute, so this is the
identity. -/
def pyAbspath (p : Str) : Str := p

/-- Result of an operation on a piece of mutable global state: `ok` on
normal return, `err` when a Python exception propagates out — the state
carries all mutations performed before the exception was raised. -/
inductive OpResult (σ : Type) where
  | ok (s : σ)
  | err (s : σ)

/-! ## save / load / flush -/

/-- The pickle-writing loop of `save`: `for name in NAMES`, look up
`sys.modules[f"seisflows_{name}"]` (a missing entry raises `KeyError`) and
`pickle.dump` it to `f"seisflows_{name}.p"` — which raises (`err`) when the
instance carries bound-method state, because of the broken Python 2 adapter
(`pickleEncV`).  A configuration `Dict` in a role slot never occurs in a
session and is not modelled (`err`). -/
def saveRoles (st : SysModules) (path : Str) : List Str → FS → OpResult FS
  | [], fs => .ok fs
  | r :: rs, fs =>
    match lookupMod st (modName r) with
    | some (.objE v) =>
      match pickleEncV v with
      | some d =>
        saveRoles st path rs (setFile fs path (pickleFileName r) (.pickleC d))
      | none => .err fs
    | some (.jsonE _) => .err fs
    | none => .err fs

/-- The JSON-writing loop of `save`: for `seisflows_parameters` then
`seisflows_paths`, `json.dump` the `sys.modules` entry with
`sort_keys=True, indent=4`.  A missing entry raises `KeyError`; a non-dict
entry raises in `json.dump`. -/
def saveJson (st : SysModules) (path : Str) : List Str → FS → OpResult FS
  | [], fs => .ok fs
  | n :: ns, fs =>
    match lookupMod st n with
    | some (.jsonE d) =>
      saveJson st path ns (setFile fs path (jsonFileName n) (.jsonC (sortPairs d) 4))
    | some (.objE _) => .err fs
    | none => .err fs

/-- Embedding of `save(path)`: create the directory if absent, write the two
configuration mappings as sorted, indented JSON files, then write one pickle
file per role. -/
def save (st : SysModules) (path : Str) (fs : FS) : OpResult FS :=
  match saveJson st path [paramsName, pathsName] (mkdirIfAbsent fs path) with
  | .ok fs' => saveRoles st path NAMES fs'
  | .err fs' => .err fs'

/-- The pickle-reading loop of `load`: `for name in NAMES`, open
`f"seisflows_{name}.p"` (`FileNotFoundError` when absent, an unpickling
error when the content is not a loadable pickle) and assign the result to
`sys.modules[f"seisflows_{name}"]`.  Entries assigned before a failure stay
assigned. -/
def loadRoles (env : ClassEnv) (path : Str) (fs : FS) :
    List Str → SysModules → OpResult SysModules
  | [], st => .ok st
  | r :: rs, st =>
    match fsLookup fs (pyAbspath path) (pickleFileName r) with
    | some (.pickleC d) =>
      match pickleDecV env d with
      | some v => loadRoles env path fs rs (setMod st (modName r) (.objE v))
      | none => .err st
    | some (.jsonC _ _) => .err st
    | none => .err st

/-- The JSON-reading loop of `load`: for `seisflows_parameters` then
`seisflows_paths`, open `f"{name}.json"` and assign `Dict(json.load(f))` to
`sys.modules[name]`. -/
def loadJson (path : Str) (fs : FS) : List Str → SysModules → OpResult SysModules
  | [], st => .ok st
  | n :: ns, st =>
    match fsLookup fs (pyAbspath path) (jsonFileName n) with
    | some (.jsonC d _) => loadJson path fs ns (setMod st n (.jsonE d))
    | some (.pickleC _) => .err st
    | none => .err st

/-- Embedding of `load(path)`: read the two configuration JSON files into
`sys.modules`, then read and unpickle the six per-role files. -/
def load (env : ClassEnv) (path : Str) (fs : FS) (st : SysModules) :
    OpResult SysModules :=
  match loadJson path fs [paramsName, pathsName] st with
  | .ok st' => loadRoles env path fs NAMES st'
  | .err st' => .err st'

/-- Embedding of `flush()`: `for name in NAMES`, delete
`sys.modules[f"seisflows_{name}"]` when present (the `in sys.modules` guard
makes the delete unconditional-safe). -/
def flush (st : SysModules) : SysModules :=
  roleModNames.foldl (fun acc k => delMod acc k) st

/-- The whole mutable state of the process: the `sys.modules` slice and the
filesystem. -/
structure ProcState where
  modules : SysModules
  fs : FS

/-- `flush` acting on the whole process state: its body only deletes
`sys.modules` entries, so the filesystem component is untouched. -/
def flushProc (ps : ProcState) : ProcState :=
  { ps with modules := flush ps.modules }

/-! ## The component resolver `custom_import` -/

/-- Abstraction of the import machinery: which dotted module names exist
under the package (`module_exists`), which import without raising
(`import_module`), and which (module, classname) pairs resolve via
`getattr`. -/
structure ImportEnv where
  moduleExists : Str → Bool
  importOk : Str → Bool
  getattrOk : Str → Str → Bool

/-- Which of the `sys.exit(-1)` branches of `custom_import` was taken. -/
inductive ExitKind where
  | usageNoName
  | invalidName
  | moduleNotFound
  | importFailed
  | attrNotFound
deriving DecidableEq

/-- Result of `custom_import`: a fatal `print` + `sys.exit(-1)`, the `Null`
sentinel class, a resolved class, or an uncaught exception on inputs the
code never guards against (e.g. a non-string parameter value). -/
inductive CIResult where
  | exit (k : ExitKind)
  | nullSentinel
  | cls (fullName : Str) (classname : Str)
  | crash
deriving DecidableEq

/-- `".".join(["seisflows", name, module])`. -/
def dotJoin (name module : Str) : Str :=
  "seisflows.".data ++ name ++ ".".data ++ module

/-- The classname derivation of `custom_import` (lines 229-236): fully
uppercase module names map through `upper()` to themselves, otherwise
`module.title().replace("_", "")`. -/
def deriveClassname (m : Str) : Str :=
  if pyIsUpper m then pyUpper m else removeUnderscores (pyTitle m)

/-- The tail of `custom_import` once a module name string is in hand:
derive the classname unless one was supplied, then check the module exists,
run the import, and extract the class. -/
def customImportResolve (env : ImportEnv) (nm m : Str) (classname : Option Str) :
    CIResult :=
  let cn := match classname with
    | some c => c
    | none => deriveClassname m
  let full := dotJoin nm m
  if env.moduleExists full then
    if env.importOk full then
      if env.getattrOk full cn then .cls full cn else .exit .attrNotFound
    else .exit .importFailed
  else .exit .moduleNotFound

/-- Embedding of `custom_import(name, module, classname)`: fatal exit when
`name` is omitted or not one of the six role names; when `module` is
omitted, look it up as `sys.modules["seisflows_parameters"][name.upper()]`,
returning the `Null` sentinel on `KeyError` or a `None` value. -/
def custom_import (env : ImportEnv) (st : SysModules)
    (name module classname : Option Str) : CIResult :=
  match name with
  | none => .exit .usageNoName
  | some nm =>
    if nm ∈ NAMES then
      match module with
      | some m => customImportResolve env nm m classname
      | none =>
        match lookupMod st paramsName with
        | none => .nullSentinel
        | some (.objE _) => .crash
        | some (.jsonE d) =>
          match alookup d (pyUpper nm) with
          | none => .nullSentinel
          | some .jNull => .nullSentinel
          | some (.jStr m) => customImportResolve env nm m classname
          | some (.jBool _) => .crash
          | some (.jInt _) => .crash
    else .exit .invalidName

/-! ## Classname-derivation claim C6 -/

/-- Capitalize a word: uppercase its first character. -/
def capWord : Str → Str
  | [] => []
  | c :: cs => c.toUpper :: cs

/-- Join words with a single separator character. -/
def joinSep (sep : Char) : List Str → Str
  | [] => []
  | [w] => w
  | w :: w2 :: ws => w ++ sep :: joinSep sep (w2 :: ws)

/-! ## load failure claims (C2) -/

/-- The JSON file of mapping `n` in `dir` exists and is readable JSON. -/
def jsonReadable (fs : FS) (dir n : Str) : Bool :=
  match fsLookup fs dir (jsonFileName n) with
  | some (.jsonC _ _) => true
  | _ => false

/-- The pickle file of role `r` in `dir` exists and unpickles. -/
def pickleReadable (env : ClassEnv) (fs : FS) (dir r : Str) : Bool :=
  match fsLookup fs dir (pickleFileName r) with
  | some (.pickleC d) => (pickleDecV env d).isSome
  | _ => false

/-- A small concrete session with both configuration mappings and all six
role instances, used to instantiate the checkpoint claims. -/
def sessionW : SysModules :=
  [(paramsName, .jsonE [("B".data, .jInt 2), ("A".data, .jInt 1)]),
   (pathsName, .jsonE []),
   (modName "system".data, .objE .vNone),
   (modName "preprocess".data, .objE .vNone),
   (modName "solver".data, .objE .vNone),
   (modName "postprocess".data, .objE .vNone),
   (modName "optimize".data, .objE .vNone),
   (modName "workflow".data, .objE .vNone)]

/-- A session identical to `sessionW` except that the `system` role instance
carries a bound method in its state (attribute `hook`), the very situation
the serialization adapter exists for. -/
def sessionMethod : SysModules :=
  [(paramsName, .jsonE []),
   (pathsName, .jsonE []),
   (modName "system".data,
     .objE (.vObj 0 (.acons "hook".data
       (.vMethod ⟨"run".data, 0⟩ (.vObj 0 .anil) 0) .anil))),
   (modName "preprocess".data, .objE .vNone),
   (modName "solver".data, .objE .vNone),
   (modName "postprocess".data, .objE .vNone),
   (modName "optimize".data, .objE .vNone),
   (modName "workflow".data, .objE .vNone)]

/-! ## Basic character lemmas -/

theorem uint32_le_iff {a b : UInt32} : a ≤ b ↔ a.toNat ≤ b.toNat := by
  simp [UInt32.le_def, BitVec.le_def, UInt32.toNat]

theorem isLower_iff {c : Char} : c.isLower = true ↔ 97 ≤ c.toNat ∧ c.toNat ≤ 122 := by
  show (c.val ≥ 97 && c.val ≤ 122) = true ↔ _
  rw [Bool.and_eq_true, decide_eq_true_iff, decide_eq_true_iff]
  constructor
  · rintro ⟨h1, h2⟩
    exact ⟨uint32_le_iff.mp h1, uint32_le_iff.mp h2⟩
  · rintro ⟨h1, h2⟩
    exact ⟨uint32_le_iff.mpr h1, uint32_le_iff.mpr h2⟩

theorem isUpper_iff {c : Char} : c.isUpper = true ↔ 65 ≤ c.toNat ∧ c.toNat ≤ 90 := by
  show (c.val ≥ 65 && c.val ≤ 90) = true ↔ _
  rw [Bool.and_eq_true, decide_eq_true_iff, decide_eq_true_iff]
  constructor
  · rintro ⟨h1, h2⟩
    exact ⟨uint32_le_iff.mp h1, uint32_le_iff.mp h2⟩
  · rintro ⟨h1, h2⟩
    exact ⟨uint32_le_iff.mpr h1, uint32_le_iff.mpr h2⟩

theorem isUpper_false_of_isLower {c : Char} (h : c.isLower = true) :
    c.isUpper = false := by
  rcases isLower_iff.mp h with ⟨h1, _⟩
  by_contra hne
  rcases isUpper_iff.mp (by simpa using hne) with ⟨_, h4⟩
  omega

theorem isLower_false_of_isUpper {c : Char} (h : c.isUpper = true) :
    c.isLower = false := by
  rcases isUpper_iff.mp h with ⟨_, h2⟩
  by_contra hne
  rcases isLower_iff.mp (by simpa using hne) with ⟨h3, _⟩
  omega

theorem toLower_eq_self {c : Char} (h : c.isUpper = false) : c.toLower = c := by
  rw [Char.toLower, if_neg]
  intro hc
  have : c.isUpper = true := isUpper_iff.mpr ⟨hc.1, hc.2⟩
  simp [this] at h

theorem toUpper_eq_self {c : Char} (h : c.isLower = false) : c.toUpper = c := by
  rw [Char.toUpper, if_neg]
  intro hc
  have : c.isLower = true := isLower_iff.mpr ⟨hc.1, hc.2⟩
  simp [this] at h

theorem toNat_toUpper_of_isLower {c : Char} (h : c.isLower = true) :
    (c.toUpper).toNat = c.toNat - 32 := by
  rcases isLower_iff.mp h with ⟨h1, h2⟩
  rw [Char.toUpper, if_pos ⟨h1, h2⟩]
  have hvalid : (c.toNat - 32).isValidChar := by
    left
    omega
  rw [Char.ofNat, dif_pos hvalid]
  simp [Char.ofNatAux, Char.toNat, UInt32.toNat]

theorem isUpper_toUpper_of_isLower {c : Char} (h : c.isLower = true) :
    (c.toUpper).isUpper = true := by
  rcases isLower_iff.mp h with ⟨h1, h2⟩
  have := toNat_toUpper_of_isLower h
  apply isUpper_iff.mpr
  omega

theorem isCased_of_isLower {c : Char} (h : c.isLower = true) : isCased c = true := by
  simp [isCased, Char.isAlpha, h]

theorem ne_underscore_of_isLower {c : Char} (h : c.isLower = true) : c ≠ '_' := by
  intro hc
  subst hc
  simp [isLower_iff] at h

theorem ne_underscore_of_isUpper {c : Char} (h : c.isUpper = true) : c ≠ '_' := by
  intro hc
  subst hc
  simp [isUpper_iff] at h

/-! ## Round-trip of pickling for method-free values -/

mutual
/-- A method-free value pickles successfully and unpickles back to itself
(no reduce tuples are involved, so the round trip is exact). -/
theorem encDecV (env : ClassEnv) : (v : PVal) → methodFreeV v = true →
    ∃ d, pickleEncV v = some d ∧ pickleDecV env d = some v
  | .vNone, _ => ⟨.dNone, rfl, rfl⟩
  | .vBool b, _ => ⟨.dBool b, rfl, rfl⟩
  | .vInt n, _ => ⟨.dInt n, rfl, rfl⟩
  | .vStr s, _ => ⟨.dStr s, rfl, rfl⟩
  | .vObj cls attrs, h => by
    have h' : methodFreeA attrs = true := by
      simpa [methodFreeV] using h
    obtain ⟨a', ha, hd⟩ := encDecA env attrs h'
    exact ⟨.dObj cls a', by simp [pickleEncV, ha], by simp [pickleDecV, hd]⟩
  | .vMethod f s c, h => by simp [methodFreeV] at h

/-- `encDecV` over attribute dictionaries. -/
theorem encDecA (env : ClassEnv) : (a : Attrs) → methodFreeA a = true →
    ∃ d, pickleEncA a = some d ∧ pickleDecA env d = some a
  | .anil, _ => ⟨.dnil, rfl, rfl⟩
  | .acons n v rest, h => by
    rw [methodFreeA, Bool.and_eq_true] at h
    obtain ⟨h1, h2⟩ := h
    obtain ⟨v', hv, hdv⟩ := encDecV env v h1
    obtain ⟨r', hr, hdr⟩ := encDecA env rest h2
    exact ⟨.dcons n v' r', by simp [pickleEncA, hv, hr],
      by simp [pickleDecA, hdv, hdr]⟩
end

/-- `findInMRO` returns the function defined by the first class along the
resolution order that defines the name. -/
theorem findInMRO_first (env : ClassEnv) (name : Str) :
    ∀ (l : List ClassId) (i : Nat), i < l.length →
    ∀ (g : FuncObj), env.decls (l.getD i 0) name = some g →
    (∀ j, j < i → env.decls (l.getD j 0) name = none) →
    findInMRO env name l = some (g, l.getD i 0)
  | [], i, hi => by simp at hi
  | c :: rest, 0, _ => by
    intro g hg _
    have hg' : env.decls c name = some g := by simpa using hg
    simp [findInMRO, hg']
  | c :: rest, i + 1, hi => by
    intro g hg hfirst
    have h0 : env.decls c name = none := by
      have := hfirst 0 (Nat.succ_pos i)
      simpa using this
    have hrec := findInMRO_first env name rest i
      (by simpa using Nat.lt_of_succ_lt_succ hi) g (by simpa using hg)
      (fun j hj => by simpa using hfirst (j + 1) (Nat.succ_lt_succ hj))
    simp only [findInMRO, h0, hrec]
    simp

/-- When no class along the resolution order defines the name, `findInMRO`
finds nothing. -/
theorem findInMRO_none (env : ClassEnv) (name : Str) :
    ∀ (l : List ClassId), (∀ c ∈ l, env.decls c name = none) →
    findInMRO env name l = none
  | [], _ => rfl
  | c :: rest, h => by
    have h0 : env.decls c name = none := h c (List.mem_cons_self c rest)
    simp only [findInMRO, h0]
    exact findInMRO_none env name rest (fun c' hc' => h c' (List.mem_cons_of_mem c hc'))

/-! ## Association-list lemmas -/

theorem alookup_filter_key {κ α : Type} [DecidableEq κ] (g : κ → Bool) :
    ∀ (l : List (κ × α)) (n : κ),
    alookup (l.filter (fun p => g p.1)) n = if g n then alookup l n else none
  | [], n => by cases hg : g n <;> simp [alookup, hg]
  | (k, v) :: rest, n => by
    by_cases hk : k = n
    · subst hk
      cases hg : g k <;>
        simp [List.filter_cons, hg, alookup, alookup_filter_key g rest]
    · cases hg : g k <;>
        cases hgn : g n <;>
          simp [List.filter_cons, hg, hgn, alookup, hk,
            alookup_filter_key g rest, hgn]

theorem alookup_cons_self {κ α : Type} [DecidableEq κ] (l : List (κ × α)) (k : κ) (v : α) :
    alookup ((k, v) :: l) k = some v := by
  simp [alookup]

theorem alookup_cons_ne {κ α : Type} [DecidableEq κ] (l : List (κ × α)) (k n : κ) (v : α)
    (h : k ≠ n) : alookup ((k, v) :: l) n = alookup l n := by
  simp [alookup, h]

theorem lookupMod_delMod (st : SysModules) (k n : Str) :
    lookupMod (delMod st k) n = if n = k then none else lookupMod st n := by
  show alookup (st.filter (fun p => decide (p.1 ≠ k))) n = _
  rw [alookup_filter_key (fun a => decide (a ≠ k)) st n]
  by_cases h : n = k <;> simp [h, lookupMod]

theorem lookupMod_setMod_self (st : SysModules) (n : Str) (e : Entry) :
    lookupMod (setMod st n e) n = some e := by
  simp [setMod, lookupMod, alookup]

theorem lookupMod_setMod_ne (st : SysModules) (n m : Str) (e : Entry) (h : n ≠ m) :
    lookupMod (setMod st n e) m = lookupMod st m := by
  show alookup ((n, e) :: delMod st n) m = _
  rw [alookup_cons_ne _ _ _ _ h]
  have := lookupMod_delMod st n m
  simp [lookupMod] at this ⊢
  rw [this, if_neg (fun hc => h hc.symm)]

/-! ## flush lemmas -/

theorem foldl_delMod_eq_filter :
    ∀ (ks : List Str) (st : SysModules),
    ks.foldl (fun acc k => delMod acc k) st
      = st.filter (fun p => decide (p.1 ∉ ks))
  | [], st => by simp
  | k :: ks, st => by
    rw [List.foldl_cons, foldl_delMod_eq_filter ks (delMod st k)]
    show (st.filter _).filter _ = _
    rw [List.filter_filter]
    apply List.filter_congr
    intro p _
    by_cases h1 : p.1 = k <;> by_cases h2 : p.1 ∈ ks <;> simp [h1, h2]

theorem flush_eq_filter (st : SysModules) :
    flush st = st.filter (fun p => decide (p.1 ∉ roleModNames)) :=
  foldl_delMod_eq_filter roleModNames st

theorem lookupMod_flush (st : SysModules) (n : Str) :
    lookupMod (flush st) n
      = if n ∈ roleModNames then none else lookupMod st n := by
  rw [flush_eq_filter]
  show alookup (st.filter (fun p => decide (p.1 ∉ roleModNames))) n = _
  rw [alookup_filter_key (fun a => decide (a ∉ roleModNames)) st n]
  by_cases h : n ∈ roleModNames <;> simp [h, lookupMod]

theorem pyTitleAux_true_lower (w rest : Str) (hw : ∀ c ∈ w, c.isLower = true) :
    pyTitleAux true (w ++ rest) = w ++ pyTitleAux true rest := by
  induction w with
  | nil => rfl
  | cons c cs ih =>
    have hc : c.isLower = true := hw c (List.mem_cons_self c cs)
    have hcs : ∀ x ∈ cs, x.isLower = true :=
      fun x hx => hw x (List.mem_cons_of_mem c hx)
    simp [pyTitleAux, isCased_of_isLower hc,
      toLower_eq_self (isUpper_false_of_isLower hc), ih hcs]

/-- Python `title()` capitalizes each separator-delimited lowercase word and
leaves the (non-cased) separator in place. -/
theorem pyTitleAux_joinSep (sep : Char) (hsep : isCased sep = false) :
    ∀ ws : List Str, (∀ w ∈ ws, ∀ c ∈ w, c.isLower = true) →
    pyTitleAux false (joinSep sep ws) = joinSep sep (ws.map capWord)
  | [], _ => rfl
  | [w], h => by
    cases w with
    | nil => rfl
    | cons c cs =>
      have hc : c.isLower = true := h _ (List.mem_singleton_self _) c (List.mem_cons_self c cs)
      have hcs : ∀ x ∈ cs, x.isLower = true :=
        fun x hx => h _ (List.mem_singleton_self _) x (List.mem_cons_of_mem c hx)
      have htail := pyTitleAux_true_lower cs [] hcs
      simp only [List.append_nil] at htail
      simp [joinSep, pyTitleAux, isCased_of_isLower hc, capWord, htail]
  | w :: w2 :: ws, h => by
    have hrec := pyTitleAux_joinSep sep hsep (w2 :: ws)
      (fun x hx => h x (List.mem_cons_of_mem w hx))
    have hw : ∀ c ∈ w, c.isLower = true := h w (List.mem_cons_self w (w2 :: ws))
    cases w with
    | nil =>
      simp [joinSep, pyTitleAux, hsep, capWord, hrec]
    | cons c cs =>
      have hc : c.isLower = true := hw c (List.mem_cons_self c cs)
      have hcs : ∀ x ∈ cs, x.isLower = true :=
        fun x hx => hw x (List.mem_cons_of_mem c hx)
      have htail := pyTitleAux_true_lower cs (sep :: joinSep sep (w2 :: ws)) hcs
      simp [joinSep, pyTitleAux, isCased_of_isLower hc, capWord, htail, hsep, hrec]

/-- Every character of a separator-join is the separator or a word character. -/
theorem mem_joinSep (sep : Char) :
    ∀ (ws : List Str) (c : Char), c ∈ joinSep sep ws →
    c = sep ∨ ∃ w ∈ ws, c ∈ w
  | [], c, hc => by simp [joinSep] at hc
  | [w], c, hc => by
    right
    exact ⟨w, List.mem_singleton_self _, hc⟩
  | w :: w2 :: ws, c, hc => by
    rw [joinSep, List.mem_append] at hc
    rcases hc with hc | hc
    · exact .inr ⟨w, List.mem_cons_self w _, hc⟩
    · rcases List.mem_cons.mp hc with hc | hc
      · exact .inl hc
      · rcases mem_joinSep sep (w2 :: ws) c hc with hc' | ⟨w', hw', hcw'⟩
        · exact .inl hc'
        · exact .inr ⟨w', List.mem_cons_of_mem w hw', hcw'⟩

/-- A string containing no uppercase cased character is not `isupper()`. -/
theorem pyIsUpper_eq_false (s : Str)
    (h : ∀ c ∈ s, isCased c = false ∨ c.isUpper = false) :
    pyIsUpper s = false := by
  rw [pyIsUpper]
  cases hany : s.any isCased with
  | false => rfl
  | true =>
    obtain ⟨c, hc, hcased⟩ := List.any_eq_true.mp hany
    have hupper : c.isUpper = false := by
      rcases h c hc with h' | h'
      · rw [hcased] at h'
        exact absurd h' (by simp)
      · exact h'
    rw [Bool.true_and]
    rcases hall : s.all (fun c => !isCased c || c.isUpper) with _ | _
    · rfl
    · have := List.all_eq_true.mp hall c hc
      rw [hcased, hupper] at this
      exact absurd this (by simp)

/-- Characters of a capitalized all-lowercase word are letters, never `'_'`. -/
theorem capWord_no_underscore (w : Str) (hw : ∀ c ∈ w, c.isLower = true) :
    ∀ c ∈ capWord w, c ≠ '_' := by
  cases w with
  | nil => intro c hc; simp [capWord] at hc
  | cons a as =>
    intro c hc
    rcases List.mem_cons.mp hc with rfl | hc
    · exact ne_underscore_of_isUpper
        (isUpper_toUpper_of_isLower (hw a (List.mem_cons_self a as)))
    · exact ne_underscore_of_isLower (hw c (List.mem_cons_of_mem a hc))

/-- Removing underscores from an underscore-join of underscore-free words
concatenates the words. -/
theorem removeUnderscores_joinSep :
    ∀ ws : List Str, (∀ w ∈ ws, ∀ c ∈ w, c ≠ '_') →
    removeUnderscores (joinSep '_' ws) = ws.flatten
  | [], _ => rfl
  | [w], h => by
    show List.filter _ w = w ++ List.flatten []
    rw [List.flatten_nil, List.append_nil]
    exact List.filter_eq_self.mpr
      (fun c hc => by simpa using h w (List.mem_singleton_self _) c hc)
  | w :: w2 :: ws, h => by
    have hrec := removeUnderscores_joinSep (w2 :: ws)
      (fun x hx => h x (List.mem_cons_of_mem w hx))
    show List.filter _ (w ++ '_' :: joinSep '_' (w2 :: ws)) = _
    rw [List.filter_append, List.filter_cons]
    simp only [decide_eq_true_eq]
    rw [if_neg (by simp)]
    have hw : List.filter (fun c => decide (c ≠ '_')) w = w :=
      List.filter_eq_self.mpr
        (fun c hc => by simpa using h w (List.mem_cons_self w _) c hc)
    rw [hw]
    show w ++ removeUnderscores (joinSep '_' (w2 :: ws)) = (w :: w2 :: ws).flatten
    rw [hrec]
    simp [List.flatten_cons]

/-! ## Sortedness of the written configuration keys -/

theorem uint32_lt_iff {a b : UInt32} : a < b ↔ a.toNat < b.toNat := by
  simp [UInt32.lt_def, BitVec.lt_def, UInt32.toNat]

theorem char_lt_or_lt {a b : Char} (h : a ≠ b) : a < b ∨ b < a := by
  have hv : a.val.toNat ≠ b.val.toNat := by
    intro he
    exact h (Char.ext (UInt32.toNat.inj he))
  rcases Nat.lt_or_ge a.val.toNat b.val.toNat with hlt | hge
  · exact .inl (Char.lt_iff_val_lt_val.mpr (uint32_lt_iff.mpr hlt))
  · have hlt : b.val.toNat < a.val.toNat := Nat.lt_of_le_of_ne hge (Ne.symm hv)
    exact .inr (Char.lt_iff_val_lt_val.mpr (uint32_lt_iff.mpr hlt))

theorem keyLE_total : ∀ a b : Str, keyLE a b = true ∨ keyLE b a = true
  | [], _ => .inl rfl
  | _ :: _, [] => .inr rfl
  | a :: as, b :: bs => by
    by_cases hab : a = b
    · subst hab
      rcases keyLE_total as bs with h | h
      · exact .inl (by simp [keyLE, h])
      · exact .inr (by simp [keyLE, h])
    · rcases char_lt_or_lt hab with h | h
      · exact .inl (by simp [keyLE, hab, h])
      · exact .inr (by simp [keyLE, Ne.symm hab, h])

theorem keysSorted_insertSorted (p : Str × JScalar) :
    ∀ l : JDict, keysSorted l = true → keysSorted (insertSorted p l) = true
  | [], _ => by simp [insertSorted, keysSorted]
  | [q], h => by
    by_cases hpq : keyLE p.1 q.1 = true
    · simp [insertSorted, hpq, keysSorted]
    · have hqp : keyLE q.1 p.1 = true := by
        rcases keyLE_total p.1 q.1 with h' | h'
        · exact absurd h' hpq
        · exact h'
      simp [insertSorted, hpq, keysSorted, hqp]
  | q :: r :: rest, h => by
    rw [keysSorted, Bool.and_eq_true] at h
    obtain ⟨hqr, hrest⟩ := h
    by_cases hpq : keyLE p.1 q.1 = true
    · rw [insertSorted, if_pos hpq, keysSorted, keysSorted]
      simp [hpq, hqr, hrest]
    · have hqp : keyLE q.1 p.1 = true := by
        rcases keyLE_total p.1 q.1 with h' | h'
        · exact absurd h' hpq
        · exact h'
      have hrec := keysSorted_insertSorted p (r :: rest) hrest
      rw [insertSorted, if_neg hpq]
      by_cases hpr : keyLE p.1 r.1 = true
      · rw [insertSorted, if_pos hpr] at hrec ⊢
        rw [keysSorted, hrec]
        simp [hqp]
      · rw [insertSorted, if_neg hpr] at hrec ⊢
        rw [keysSorted, hrec]
        simp [hqr]

/-- The key-sorted rewrite of a configuration mapping is key-sorted. -/
theorem keysSorted_sortPairs : ∀ d : JDict, keysSorted (sortPairs d) = true
  | [] => rfl
  | p :: rest => keysSorted_insertSorted p (sortPairs rest) (keysSorted_sortPairs rest)

/-! ## Filesystem lemmas -/

theorem setFile_dirs (fs : FS) (d n : Str) (c : FileContent) :
    (setFile fs d n c).dirs = fs.dirs := rfl

theorem fsLookup_setFile_self (fs : FS) (d n : Str) (c : FileContent) :
    fsLookup (setFile fs d n c) d n = some c := by
  simp [fsLookup, setFile, alookup]

theorem fsLookup_setFile_ne (fs : FS) (d n d' n' : Str) (c : FileContent)
    (h : (d, n) ≠ (d', n')) :
    fsLookup (setFile fs d n c) d' n' = fsLookup fs d' n' := by
  show alookup (((d, n), c) :: fs.files.filter (fun p => p.1 ≠ (d, n))) (d', n') = _
  rw [alookup_cons_ne _ _ _ _ h]
  rw [alookup_filter_key (fun k => decide (k ≠ (d, n))) fs.files (d', n')]
  rw [if_pos (decide_eq_true (Ne.symm h))]
  rfl

theorem fsLookup_mkdirIfAbsent (fs : FS) (dir d n : Str) :
    fsLookup (mkdirIfAbsent fs dir) d n = fsLookup fs d n := by
  unfold mkdirIfAbsent
  split <;> rfl

theorem mem_dirs_mkdirIfAbsent (fs : FS) (dir : Str) :
    dir ∈ (mkdirIfAbsent fs dir).dirs := by
  unfold mkdirIfAbsent
  split
  · assumption
  · exact List.mem_cons_self _ _

/-! ## Specifications of the save / load loops -/

theorem saveJson_ok (st : SysModules) (path : Str) (D : Str → JDict) :
    ∀ (ns : List Str) (fs : FS),
    (∀ n ∈ ns, lookupMod st n = some (.jsonE (D n))) →
    (ns.map jsonFileName).Nodup →
    ∃ fs', saveJson st path ns fs = .ok fs' ∧
      fs'.dirs = fs.dirs ∧
      (∀ d m, (∀ n ∈ ns, ¬(d = path ∧ m = jsonFileName n)) →
        fsLookup fs' d m = fsLookup fs d m) ∧
      (∀ n ∈ ns, fsLookup fs' path (jsonFileName n)
        = some (.jsonC (sortPairs (D n)) 4))
  | [], fs => fun _ _ => ⟨fs, rfl, rfl, fun _ _ _ => rfl, by simp⟩
  | n :: ns, fs => fun h hnd => by
    have hn := h n (List.mem_cons_self n ns)
    rw [List.map_cons, List.nodup_cons] at hnd
    obtain ⟨hnotin, hnd'⟩ := hnd
    obtain ⟨fs', hok, hdirs, hframe, hlook⟩ :=
      saveJson_ok st path D ns
        (setFile fs path (jsonFileName n) (.jsonC (sortPairs (D n)) 4))
        (fun m hm => h m (List.mem_cons_of_mem n hm)) hnd'
    refine ⟨fs', ?_, ?_, ?_, ?_⟩
    · simp only [saveJson, hn]
      exact hok
    · rw [hdirs]
      rfl
    · intro d m hm
      rw [hframe d m (fun k hk => hm k (List.mem_cons_of_mem n hk))]
      apply fsLookup_setFile_ne
      intro he
      injection he with h1 h2
      exact hm n (List.mem_cons_self n ns) ⟨h1.symm, h2.symm⟩
    · intro m hm
      rcases List.mem_cons.mp hm with rfl | hm'
      · rw [hframe path (jsonFileName m)
          (fun k hk hcon => hnotin (hcon.2 ▸ List.mem_map_of_mem jsonFileName hk))]
        exact fsLookup_setFile_self _ _ _ _
      · exact hlook m hm'

theorem saveRoles_ok (st : SysModules) (path : Str) (V : Str → PVal)
    (E : Str → PData) :
    ∀ (rs : List Str) (fs : FS),
    (∀ r ∈ rs, lookupMod st (modName r) = some (.objE (V r)) ∧
      pickleEncV (V r) = some (E r)) →
    (rs.map pickleFileName).Nodup →
    ∃ fs', saveRoles st path rs fs = .ok fs' ∧
      fs'.dirs = fs.dirs ∧
      (∀ d m, (∀ r ∈ rs, ¬(d = path ∧ m = pickleFileName r)) →
        fsLookup fs' d m = fsLookup fs d m) ∧
      (∀ r ∈ rs, fsLookup fs' path (pickleFileName r)
        = some (.pickleC (E r)))
  | [], fs => fun _ _ => ⟨fs, rfl, rfl, fun _ _ _ => rfl, by simp⟩
  | r :: rs, fs => fun h hnd => by
    obtain ⟨hr, he⟩ := h r (List.mem_cons_self r rs)
    rw [List.map_cons, List.nodup_cons] at hnd
    obtain ⟨hnotin, hnd'⟩ := hnd
    obtain ⟨fs', hok, hdirs, hframe, hlook⟩ :=
      saveRoles_ok st path V E rs
        (setFile fs path (pickleFileName r) (.pickleC (E r)))
        (fun m hm => h m (List.mem_cons_of_mem r hm)) hnd'
    refine ⟨fs', ?_, ?_, ?_, ?_⟩
    · simp only [saveRoles, hr, he]
      exact hok
    · rw [hdirs]
      rfl
    · intro d m hm
      rw [hframe d m (fun k hk => hm k (List.mem_cons_of_mem r hk))]
      apply fsLookup_setFile_ne
      intro he
      injection he with h1 h2
      exact hm r (List.mem_cons_self r rs) ⟨h1.symm, h2.symm⟩
    · intro m hm
      rcases List.mem_cons.mp hm with rfl | hm'
      · rw [hframe path (pickleFileName m)
          (fun k hk hcon => hnotin (hcon.2 ▸ List.mem_map_of_mem pickleFileName hk))]
        exact fsLookup_setFile_self _ _ _ _
      · exact hlook m hm'

theorem loadJson_ok (path : Str) (fs : FS) (J : Str → JDict) (I : Str → Nat) :
    ∀ (ns : List Str) (st : SysModules),
    (∀ n ∈ ns, fsLookup fs (pyAbspath path) (jsonFileName n)
      = some (.jsonC (J n) (I n))) →
    ns.Nodup →
    ∃ st', loadJson path fs ns st = .ok st' ∧
      (∀ m, (∀ n ∈ ns, m ≠ n) → lookupMod st' m = lookupMod st m) ∧
      (∀ n ∈ ns, lookupMod st' n = some (.jsonE (J n)))
  | [], st => fun _ _ => ⟨st, rfl, fun _ _ => rfl, by simp⟩
  | n :: ns, st => fun h hnd => by
    have hn := h n (List.mem_cons_self n ns)
    rw [List.nodup_cons] at hnd
    obtain ⟨hnotin, hnd'⟩ := hnd
    obtain ⟨st', hok, hframe, hlook⟩ :=
      loadJson_ok path fs J I ns (setMod st n (.jsonE (J n)))
        (fun m hm => h m (List.mem_cons_of_mem n hm)) hnd'
    refine ⟨st', ?_, ?_, ?_⟩
    · simp only [loadJson, hn]
      exact hok
    · intro m hm
      rw [hframe m (fun k hk => hm k (List.mem_cons_of_mem n hk))]
      exact lookupMod_setMod_ne st n m _
        (fun he => hm n (List.mem_cons_self n ns) he.symm)
    · intro m hm
      rcases List.mem_cons.mp hm with rfl | hm'
      · rw [hframe m (fun k hk he => hnotin (he ▸ hk))]
        exact lookupMod_setMod_self _ _ _
      · exact hlook m hm'

theorem loadRoles_ok (env : ClassEnv) (path : Str) (fs : FS)
    (W : Str → PVal) (E : Str → PData) :
    ∀ (rs : List Str) (st : SysModules),
    (∀ r ∈ rs, fsLookup fs (pyAbspath path) (pickleFileName r)
        = some (.pickleC (E r)) ∧ pickleDecV env (E r) = some (W r)) →
    (rs.map modName).Nodup →
    ∃ st', loadRoles env path fs rs st = .ok st' ∧
      (∀ m, (∀ r ∈ rs, m ≠ modName r) → lookupMod st' m = lookupMod st m) ∧
      (∀ r ∈ rs, lookupMod st' (modName r) = some (.objE (W r)))
  | [], st => fun _ _ => ⟨st, rfl, fun _ _ => rfl, by simp⟩
  | r :: rs, st => fun h hnd => by
    obtain ⟨hfile, hdec⟩ := h r (List.mem_cons_self r rs)
    rw [List.map_cons, List.nodup_cons] at hnd
    obtain ⟨hnotin, hnd'⟩ := hnd
    obtain ⟨st', hok, hframe, hlook⟩ :=
      loadRoles_ok env path fs W E rs (setMod st (modName r) (.objE (W r)))
        (fun m hm => h m (List.mem_cons_of_mem r hm)) hnd'
    refine ⟨st', ?_, ?_, ?_⟩
    · simp only [loadRoles, hfile, hdec]
      exact hok
    · intro m hm
      rw [hframe m (fun k hk => hm k (List.mem_cons_of_mem r hk))]
      exact lookupMod_setMod_ne st (modName r) m _
        (fun he => hm r (List.mem_cons_self r rs) he.symm)
    · intro m hm
      rcases List.mem_cons.mp hm with rfl | hm'
      · rw [hframe (modName m)
          (fun k hk he => hnotin (he ▸ List.mem_map_of_mem modName hk))]
        exact lookupMod_setMod_self _ _ _
      · exact hlook m hm'

/-- Specification of a successful `save`: it returns a filesystem whose
directories are those after the mkdir, containing the two sorted JSON files
and one pickle file per role, and touching nothing else. -/
theorem save_spec (st : SysModules) (path : Str) (fs : FS) (pd qd : JDict)
    (V : Str → PVal) (E : Str → PData)
    (hp : lookupMod st paramsName = some (.jsonE pd))
    (hq : lookupMod st pathsName = some (.jsonE qd))
    (hroles : ∀ r ∈ NAMES, lookupMod st (modName r) = some (.objE (V r)))
    (henc : ∀ r ∈ NAMES, pickleEncV (V r) = some (E r)) :
    ∃ fs', save st path fs = .ok fs' ∧
      fs'.dirs = (mkdirIfAbsent fs path).dirs ∧
      fsLookup fs' path (jsonFileName paramsName) = some (.jsonC (sortPairs pd) 4) ∧
      fsLookup fs' path (jsonFileName pathsName) = some (.jsonC (sortPairs qd) 4) ∧
      (∀ r ∈ NAMES, fsLookup fs' path (pickleFileName r)
        = some (.pickleC (E r))) ∧
      (∀ d m, (∀ n ∈ [paramsName, pathsName], ¬(d = path ∧ m = jsonFileName n)) →
        (∀ r ∈ NAMES, ¬(d = path ∧ m = pickleFileName r)) →
        fsLookup fs' d m = fsLookup fs d m) := by
  have hD : ∀ n ∈ [paramsName, pathsName], lookupMod st n
      = some (.jsonE (if n = paramsName then pd else qd)) := by
    intro n hn
    rcases List.mem_cons.mp hn with rfl | hn'
    · simpa using hp
    · rcases List.mem_cons.mp hn' with rfl | h0
      · rw [if_neg (by decide)]
        exact hq
      · simp at h0
  obtain ⟨fs1, hok1, hdirs1, hframe1, hlook1⟩ :=
    saveJson_ok st path (fun n => if n = paramsName then pd else qd)
      [paramsName, pathsName] (mkdirIfAbsent fs path) hD (by decide)
  obtain ⟨fs2, hok2, hdirs2, hframe2, hlook2⟩ :=
    saveRoles_ok st path V E NAMES fs1
      (fun r hr => ⟨hroles r hr, henc r hr⟩) (by decide)
  have hjsonpickle : ∀ n ∈ [paramsName, pathsName], ∀ r ∈ NAMES,
      jsonFileName n ≠ pickleFileName r := by decide
  refine ⟨fs2, ?_, ?_, ?_, ?_, hlook2, ?_⟩
  · simp only [save, hok1]
    exact hok2
  · rw [hdirs2, hdirs1]
  · rw [hframe2 path (jsonFileName paramsName)
      (fun r hr hcon => hjsonpickle paramsName (by simp) r hr hcon.2)]
    have := hlook1 paramsName (by simp)
    simpa using this
  · rw [hframe2 path (jsonFileName pathsName)
      (fun r hr hcon => hjsonpickle pathsName (by simp) r hr hcon.2)]
    have := hlook1 pathsName (by simp)
    rw [if_neg (by decide)] at this
    exact this
  · intro d m hj hpk
    rw [hframe2 d m hpk, hframe1 d m hj, fsLookup_mkdirIfAbsent]

theorem loadJson_err (path : Str) (fs : FS) :
    ∀ (ns : List Str) (st : SysModules),
    (∃ n ∈ ns, jsonReadable fs (pyAbspath path) n = false) →
    ∃ st', loadJson path fs ns st = .err st'
  | [], _ => fun ⟨n, hn, _⟩ => absurd hn (List.not_mem_nil n)
  | n :: ns, st => fun ⟨m, hm, hbad⟩ => by
    rcases hcase : fsLookup fs (pyAbspath path) (jsonFileName n) with _ | c
    · exact ⟨st, by simp only [loadJson, hcase]⟩
    · cases c with
      | jsonC d i =>
        have hm' : m ∈ ns := by
          rcases List.mem_cons.mp hm with rfl | h'
          · simp only [jsonReadable, hcase] at hbad
            exact absurd hbad (by simp)
          · exact h'
        obtain ⟨st', hst'⟩ :=
          loadJson_err path fs ns (setMod st n (.jsonE d)) ⟨m, hm', hbad⟩
        exact ⟨st', by simp only [loadJson, hcase]; exact hst'⟩
      | pickleC d => exact ⟨st, by simp only [loadJson, hcase]⟩

theorem loadRoles_err (env : ClassEnv) (path : Str) (fs : FS) :
    ∀ (rs : List Str) (st : SysModules),
    (∃ r ∈ rs, pickleReadable env fs (pyAbspath path) r = false) →
    ∃ st', loadRoles env path fs rs st = .err st'
  | [], _ => fun ⟨r, hr, _⟩ => absurd hr (List.not_mem_nil r)
  | r :: rs, st => fun ⟨m, hm, hbad⟩ => by
    rcases hcase : fsLookup fs (pyAbspath path) (pickleFileName r) with _ | c
    · exact ⟨st, by simp only [loadRoles, hcase]⟩
    · cases c with
      | jsonC d i => exact ⟨st, by simp only [loadRoles, hcase]⟩
      | pickleC d =>
        rcases hdec : pickleDecV env d with _ | v
        · exact ⟨st, by simp only [loadRoles, hcase, hdec]⟩
        · have hm' : m ∈ rs := by
            rcases List.mem_cons.mp hm with rfl | h'
            · simp only [pickleReadable, hcase, hdec] at hbad
              simp at hbad
            · exact h'
          obtain ⟨st', hst'⟩ := loadRoles_err env path fs rs
            (setMod st (modName r) (.objE v)) ⟨m, hm', hbad⟩
          exact ⟨st', by simp only [loadRoles, hcase, hdec]; exact hst'⟩

theorem sessionW_roles : ∀ r ∈ NAMES,
    lookupMod sessionW (modName r) = some (.objE ((fun _ => PVal.vNone) r)) := by
  intro r hr
  simp only [NAMES, List.mem_cons, List.not_mem_nil, or_false] at hr
  rcases hr with rfl | rfl | rfl | rfl | rfl | rfl <;> rfl

/-- Round trip of the parts of save/load that Python 3 leaves working: a
session whose role instances carry no bound-method state saves successfully
and loads back with exactly the original role instances.  (Not a claim
theorem: the spec's round-trip claim is about bound-callable state, which
the broken adapter makes unsaveable; see the C1 theorem.) -/
theorem save_load_roundtrip_method_free (env : ClassEnv) (st st0 : SysModules)
    (path : Str) (fs : FS) (pd qd : JDict) (V : Str → PVal)
    (hp : lookupMod st paramsName = some (.jsonE pd))
    (hq : lookupMod st pathsName = some (.jsonE qd))
    (hroles : ∀ r ∈ NAMES, lookupMod st (modName r) = some (.objE (V r)))
    (hmf : ∀ r ∈ NAMES, methodFreeV (V r) = true) :
    ∃ fs' st', save st path fs = .ok fs' ∧ load env path fs' st0 = .ok st' ∧
      ∀ r ∈ NAMES, lookupMod st' (modName r) = some (.objE (V r)) := by
  have hEex : ∀ r : Str, ∃ d : PData, methodFreeV (V r) = true →
      pickleEncV (V r) = some d ∧ pickleDecV env d = some (V r) := by
    intro r
    by_cases hm : methodFreeV (V r) = true
    · obtain ⟨d, h1, h2⟩ := encDecV env (V r) hm
      exact ⟨d, fun _ => ⟨h1, h2⟩⟩
    · exact ⟨.dNone, fun hc => absurd hc hm⟩
  choose E hE using hEex
  obtain ⟨fs', hok, _, hp1, hq1, hrl, _⟩ :=
    save_spec st path fs pd qd V E hp hq hroles
      (fun r hr => (hE r (hmf r hr)).1)
  have hload : ∀ r ∈ NAMES, fsLookup fs' (pyAbspath path) (pickleFileName r)
      = some (.pickleC (E r)) ∧ pickleDecV env (E r) = some (V r) := by
    intro r hr
    exact ⟨hrl r hr, (hE r (hmf r hr)).2⟩
  have hjson : ∀ n ∈ [paramsName, pathsName],
      fsLookup fs' (pyAbspath path) (jsonFileName n)
        = some (.jsonC (if n = paramsName then sortPairs pd else sortPairs qd) 4) := by
    intro n hn
    rcases List.mem_cons.mp hn with rfl | hn'
    · simpa using hp1
    · rcases List.mem_cons.mp hn' with rfl | h0
      · rw [if_neg (by decide)]
        exact hq1
      · simp at h0
  obtain ⟨st1, hokJ, _, _⟩ :=
    loadJson_ok path fs'
      (fun k => if k = paramsName then sortPairs pd else sortPairs qd)
      (fun _ => 4) [paramsName, pathsName] st0 hjson (by decide)
  obtain ⟨st2, hokR, _, hlookR⟩ :=
    loadRoles_ok env path fs' V E NAMES st1 hload (by decide)
  refine ⟨fs', st2, hok, ?_, hlookR⟩
  simp only [load, hokJ]
  exact hokR

/-- C1 (code bug): evaluated at a session whose `system` instance carries a
bound callable — exactly the state the round-trip claim is about — `save`
fails: `pickle.dump` dispatches the bound method to `_pickle_method`, whose
Python 2 attribute read `method.im_func` raises `AttributeError` under
Python 3, so the checkpoint is aborted after the JSON files and can never be
loaded back.  The first conjunct shows the pickling of that instance
failing; the second shows `save` raising with only the two JSON files
written. -/
theorem c1_save_method_state_raises :
    pickleEncV (.vObj 0 (.acons "hook".data
      (.vMethod ⟨"run".data, 0⟩ (.vObj 0 .anil) 0) .anil)) = none ∧
    save sessionMethod "/d".data ⟨[], []⟩
      = .err ⟨["/d".data],
          [(("/d".data, jsonFileName pathsName), .jsonC [] 4),
           (("/d".data, jsonFileName paramsName), .jsonC [] 4)]⟩ :=
  ⟨rfl, rfl⟩

/-- C2 counterexample: a checkpoint directory holding both configuration
files and the `system` pickle but missing `seisflows_preprocess.p`.  `load`
does raise, but the failing state already holds the `system` role instance
read from that directory — load is not all-or-nothing. -/
theorem c2_load_partial_population_counterexample :
    load ⟨fun c => [c], fun _ _ => none⟩ "/d".data
      ⟨["/d".data],
       [(("/d".data, jsonFileName paramsName), .jsonC [] 4),
        (("/d".data, jsonFileName pathsName), .jsonC [] 4),
        (("/d".data, pickleFileName "system".data), .pickleC .dNone)]⟩ []
      = .err [(modName "system".data, .objE .vNone),
              (pathsName, .jsonE []), (paramsName, .jsonE [])] ∧
    lookupMod [(modName "system".data, .objE .vNone),
               (pathsName, .jsonE []), (paramsName, .jsonE [])]
      (modName "system".data) = some (.objE .vNone) :=
  ⟨rfl, rfl⟩

/-- C2 amended: when any expected checkpoint file — a configuration JSON
file or a per-role pickle — is missing or unreadable, `load` fails with an
error; but it is not all-or-nothing: the files are processed in a fixed
order (parameters, paths, then the roles in order) and every entry assigned
before the failing file remains populated. -/
theorem c2_load_missing_file_errors (env : ClassEnv) (path : Str) (fs : FS)
    (st : SysModules)
    (h : (∃ n ∈ [paramsName, pathsName], jsonReadable fs (pyAbspath path) n = false) ∨
         (∃ r ∈ NAMES, pickleReadable env fs (pyAbspath path) r = false)) :
    ∃ st', load env path fs st = .err st' := by
  rcases h with hj | hpk
  · obtain ⟨st', hst'⟩ := loadJson_err path fs [paramsName, pathsName] st hj
    exact ⟨st', by simp only [load, hst']⟩
  · cases hload : loadJson path fs [paramsName, pathsName] st with
    | ok st1 =>
      obtain ⟨st', hst'⟩ := loadRoles_err env path fs NAMES st1 hpk
      exact ⟨st', by simp only [load, hload]; exact hst'⟩
    | err st1 => exact ⟨st1, by simp only [load, hload]⟩

/-- Closed instance of amended C2: loading from an empty filesystem fails. -/
theorem c2_load_missing_file_errors_witness :
    ∃ st', load ⟨fun c => [c], fun _ _ => none⟩ "/d".data ⟨[], []⟩ [] = .err st' :=
  c2_load_missing_file_errors _ _ _ _
    (.inl ⟨paramsName, List.mem_cons_self _ _, rfl⟩)

/-! ## Serialization-adapter claims -/

/-- C3 (code bug): `_pickle_method` never encodes any bound method as the
claimed (function name, owning object, owning class) tuple: its first
expression `method.im_func` is a Python 2 attribute that Python 3 bound
methods do not have (`methodHasAttr "im_func" = false`), so the adapter
raises `AttributeError` for every bound method instead of producing the
tuple the spec describes. -/
theorem c3_pickle_method_raises (f : FuncObj) (s : PVal) (c : ClassId) :
    pickle_method (.vMethod f s c) = none ∧
    methodHasAttr "im_func".data = false :=
  ⟨rfl, rfl⟩

/-- C4: when no class along the owning class's MRO defines the encoded
function name, `_unpickle_method` fails (the Python loop leaves `func`
unassigned and the code raises) and never returns a half-bound callable. -/
theorem c4_unpickle_unresolvable_fails (env : ClassEnv) (name : Str)
    (obj : PVal) (cls : ClassId)
    (h : ∀ c ∈ env.mro cls, env.decls c name = none) :
    unpickle_method env name obj cls = none := by
  simp [unpickle_method, findInMRO_none env name (env.mro cls) h]

/-- Closed instance of C4: an environment whose classes define no methods. -/
theorem c4_unpickle_unresolvable_fails_witness :
    unpickle_method ⟨fun c => [c], fun _ _ => none⟩ "gone".data .vNone 5 = none :=
  c4_unpickle_unresolvable_fails ⟨fun c => [c], fun _ _ => none⟩ "gone".data
    .vNone 5 (by decide)

/-! ## Resolver claims C5 and C7 -/

/-- C5: for a valid role with the implementation name omitted, when the
parameters mapping is absent, lacks the role's key, or maps it to `None`,
`custom_import` returns the `Null` sentinel — not an error or exit. -/
theorem c5_disabled_role_null (env : ImportEnv) (st : SysModules) (nm : Str)
    (cn : Option Str) (hrole : nm ∈ NAMES)
    (hnone : lookupMod st paramsName = none ∨
      ∃ d, lookupMod st paramsName = some (.jsonE d) ∧
        (alookup d (pyUpper nm) = none ∨ alookup d (pyUpper nm) = some .jNull)) :
    custom_import env st (some nm) none cn = .nullSentinel := by
  simp only [custom_import, if_pos hrole]
  rcases hnone with h | ⟨d, hd, hkey⟩
  · rw [h]
  · rw [hd]
    rcases hkey with h2 | h2 <;> simp [h2]

/-- Closed instance of C5: an empty session (`seisflows_parameters` absent). -/
theorem c5_disabled_role_null_witness :
    custom_import ⟨fun _ => true, fun _ => true, fun _ _ => true⟩ []
      (some "solver".data) none none = .nullSentinel :=
  c5_disabled_role_null _ _ _ _ (by decide) (Or.inl rfl)

/-- C7: a missing role argument, or one outside the six fixed role names,
makes `custom_import` print and `sys.exit(-1)` — it never resolves a
component type. -/
theorem c7_invalid_role_exits (env : ImportEnv) (st : SysModules)
    (module classname : Option Str) :
    custom_import env st none module classname = .exit .usageNoName ∧
    ∀ nm : Str, nm ∉ NAMES →
      custom_import env st (some nm) module classname = .exit .invalidName := by
  refine ⟨rfl, fun nm h => ?_⟩
  simp [custom_import, h]

/-- Closed instance of C7 at role name `"bogus"` and at an omitted role. -/
theorem c7_invalid_role_exits_witness :
    custom_import ⟨fun _ => true, fun _ => true, fun _ _ => true⟩ []
      none none none = .exit .usageNoName ∧
    custom_import ⟨fun _ => true, fun _ => true, fun _ _ => true⟩ []
      (some "bogus".data) none none = .exit .invalidName :=
  ⟨(c7_invalid_role_exits _ _ none none).1,
   (c7_invalid_role_exits _ _ none none).2 "bogus".data (by decide)⟩

/-- C6 counterexample: for the hyphen-delimited lowercase implementation
name `"my-solver"` the derived class identifier is `"My-Solver"` — the
hyphen survives — and not the concatenation `"MySolver"` of the capitalized
words, so the claim's casing rule fails on hyphen-delimited names. -/
theorem c6_hyphen_counterexample :
    deriveClassname "my-solver".data = "My-Solver".data ∧
    deriveClassname "my-solver".data ≠ "MySolver".data ∧
    (["my".data, "solver".data].map capWord).flatten = "MySolver".data := by
  refine ⟨by decide, by decide, by decide⟩

/-- C6 amended: an underscore-delimited lowercase implementation name maps
to the concatenation of its capitalized words (CamelCase, underscores
removed); a hyphen-delimited lowercase name keeps its hyphens, each word
capitalized; a fully uppercase name maps to itself (through `upper()`); and
a supplied override class name is used instead of the derived identifier. -/
theorem c6_classname_derivation :
    (∀ ws : List Str, (∀ w ∈ ws, ∀ c ∈ w, c.isLower = true) →
      deriveClassname (joinSep '_' ws) = (ws.map capWord).flatten) ∧
    (∀ ws : List Str, (∀ w ∈ ws, ∀ c ∈ w, c.isLower = true) →
      deriveClassname (joinSep '-' ws) = joinSep '-' (ws.map capWord)) ∧
    (∀ m : Str, pyIsUpper m = true → deriveClassname m = m) ∧
    (∀ (env : ImportEnv) (nm m cn : Str),
      env.moduleExists (dotJoin nm m) = true →
      env.importOk (dotJoin nm m) = true →
      env.getattrOk (dotJoin nm m) cn = true →
      customImportResolve env nm m (some cn) = .cls (dotJoin nm m) cn) := by
  have hlowmem : ∀ (sep : Char) (ws : List Str),
      (∀ w ∈ ws, ∀ c ∈ w, c.isLower = true) →
      ∀ c ∈ joinSep sep ws, c = sep ∨ c.isLower = true := by
    intro sep ws hws c hc
    rcases mem_joinSep sep ws c hc with h | ⟨w, hw, hcw⟩
    · exact .inl h
    · exact .inr (hws w hw c hcw)
  have hnotupper : ∀ (sep : Char), isCased sep = false → ∀ (ws : List Str),
      (∀ w ∈ ws, ∀ c ∈ w, c.isLower = true) →
      pyIsUpper (joinSep sep ws) = false := by
    intro sep hsep ws hws
    apply pyIsUpper_eq_false
    intro c hc
    rcases hlowmem sep ws hws c hc with rfl | h
    · exact .inl hsep
    · exact .inr (isUpper_false_of_isLower h)
  refine ⟨?_, ?_, ?_, ?_⟩
  · intro ws hws
    rw [deriveClassname, if_neg (by simp [hnotupper '_' (by decide) ws hws])]
    rw [pyTitle, pyTitleAux_joinSep '_' (by decide) ws hws]
    apply removeUnderscores_joinSep
    intro w hw c hc
    obtain ⟨w0, hw0, rfl⟩ := List.mem_map.mp hw
    exact capWord_no_underscore w0 (hws w0 hw0) c hc
  · intro ws hws
    rw [deriveClassname, if_neg (by simp [hnotupper '-' (by decide) ws hws])]
    rw [pyTitle, pyTitleAux_joinSep '-' (by decide) ws hws]
    apply List.filter_eq_self.mpr
    intro c hc
    rcases mem_joinSep '-' (ws.map capWord) c hc with rfl | ⟨w, hw, hcw⟩
    · decide
    · obtain ⟨w0, hw0, rfl⟩ := List.mem_map.mp hw
      simpa using capWord_no_underscore w0 (hws w0 hw0) c hcw
  · intro m hm
    rw [deriveClassname, if_pos hm, pyUpper]
    have hchar : ∀ c ∈ m, c.toUpper = c := by
      intro c hc
      apply toUpper_eq_self
      rw [pyIsUpper, Bool.and_eq_true] at hm
      have := List.all_eq_true.mp hm.2 c hc
      rcases Bool.or_eq_true_iff.mp this with h' | h'
      · cases hl : c.isLower with
        | false => rfl
        | true =>
          rw [isCased_of_isLower hl] at h'
          exact absurd h' (by simp)
      · exact isLower_false_of_isUpper h'
    rw [List.map_congr_left hchar]
    simp
  · intro env nm m cn h1 h2 h3
    simp [customImportResolve, h1, h2, h3]

/-- Closed instances of C6 amended: CamelCase for `"line_search"`,
hyphen-preserving capitalization for `"my-solver"`, identity for `"LBFGS"`,
and a supplied override classname winning over derivation. -/
theorem c6_classname_derivation_witness :
    deriveClassname "line_search".data = "LineSearch".data ∧
    deriveClassname "my-solver".data = "My-Solver".data ∧
    deriveClassname "LBFGS".data = "LBFGS".data ∧
    customImportResolve ⟨fun _ => true, fun _ => true, fun _ _ => true⟩
      "optimize".data "lbfgs".data (some "Custom".data)
      = .cls (dotJoin "optimize".data "lbfgs".data) "Custom".data := by
  refine ⟨?_, ?_, ?_, ?_⟩
  · exact c6_classname_derivation.1 ["line".data, "search".data] (by decide)
  · exact c6_classname_derivation.2.1 ["my".data, "solver".data] (by decide)
  · exact c6_classname_derivation.2.2.1 "LBFGS".data (by decide)
  · exact c6_classname_derivation.2.2.2
      ⟨fun _ => true, fun _ => true, fun _ _ => true⟩
      "optimize".data "lbfgs".data "Custom".data rfl rfl rfl

/-- C8 counterexample: on a session whose `system` instance holds a bound
method, `save` raises inside `pickle.dump` (the broken Python 2 adapter)
after writing the two JSON files: the result is an error state in which no
role pickle file exists — refuting, for sessions with bound-callable state,
the claim that save writes one binary-serialized file per role. -/
theorem c8_method_state_counterexample :
    save sessionMethod "/d".data ⟨[], []⟩
      = .err ⟨["/d".data],
          [(("/d".data, jsonFileName pathsName), .jsonC [] 4),
           (("/d".data, jsonFileName paramsName), .jsonC [] 4)]⟩ ∧
    fsLookup ⟨["/d".data],
        [(("/d".data, jsonFileName pathsName), .jsonC [] 4),
         (("/d".data, jsonFileName paramsName), .jsonC [] 4)]⟩
      "/d".data (pickleFileName "system".data) = none :=
  ⟨rfl, rfl⟩

/-- C8 amended: for a session whose configuration entries are present and
whose role instances carry no bound-method state, `save` succeeds, creates
the target directory if absent, writes each of the two configuration
mappings as its own JSON file with keys sorted and indent 4, writes exactly
one pickle file per role — each file name derived from the mapping or role
identifier — and writes nothing else anywhere.  (With bound-method state in
any instance, `pickle.dump` raises in the broken Python 2 adapter and the
checkpoint is aborted; see the counterexample.) -/
theorem c8_save_writes_checkpoint (st : SysModules) (path : Str) (fs : FS)
    (pd qd : JDict) (V : Str → PVal)
    (hp : lookupMod st paramsName = some (.jsonE pd))
    (hq : lookupMod st pathsName = some (.jsonE qd))
    (hroles : ∀ r ∈ NAMES, lookupMod st (modName r) = some (.objE (V r)))
    (hmf : ∀ r ∈ NAMES, methodFreeV (V r) = true) :
    ∃ fs', save st path fs = .ok fs' ∧
      path ∈ fs'.dirs ∧
      fsLookup fs' path (jsonFileName paramsName) = some (.jsonC (sortPairs pd) 4) ∧
      fsLookup fs' path (jsonFileName pathsName) = some (.jsonC (sortPairs qd) 4) ∧
      keysSorted (sortPairs pd) = true ∧
      keysSorted (sortPairs qd) = true ∧
      (∀ r ∈ NAMES, ∃ d, pickleEncV (V r) = some d ∧
        fsLookup fs' path (pickleFileName r) = some (.pickleC d)) ∧
      (∀ d m, d ≠ path → fsLookup fs' d m = fsLookup fs d m) ∧
      (∀ m, (∀ n ∈ [paramsName, pathsName], m ≠ jsonFileName n) →
        (∀ r ∈ NAMES, m ≠ pickleFileName r) →
        fsLookup fs' path m = fsLookup fs path m) := by
  have hEex : ∀ r : Str, ∃ d : PData, methodFreeV (V r) = true →
      pickleEncV (V r) = some d := by
    intro r
    by_cases hm : methodFreeV (V r) = true
    · obtain ⟨d, h1, _⟩ := encDecV ⟨fun c => [c], fun _ _ => none⟩ (V r) hm
      exact ⟨d, fun _ => h1⟩
    · exact ⟨.dNone, fun hc => absurd hc hm⟩
  choose E hE using hEex
  obtain ⟨fs', hok, hdirs, hp1, hq1, hrl, hfr⟩ :=
    save_spec st path fs pd qd V E hp hq hroles (fun r hr => hE r (hmf r hr))
  refine ⟨fs', hok, ?_, hp1, hq1, keysSorted_sortPairs pd, keysSorted_sortPairs qd,
    ?_, ?_, ?_⟩
  · rw [hdirs]
    exact mem_dirs_mkdirIfAbsent fs path
  · intro r hr
    exact ⟨E r, hE r (hmf r hr), hrl r hr⟩
  · intro d m hd
    exact hfr d m (fun n _ hcon => hd hcon.1) (fun r _ hcon => hd hcon.1)
  · intro m hj hpk
    exact hfr path m (fun n hn hcon => hj n hn hcon.2) (fun r hr hcon => hpk r hr hcon.2)

/-- Closed instance of amended C8: saving the method-free `sessionW` into an
empty filesystem; the parameters mapping comes back key-sorted and the
`solver` role gets its pickle file. -/
theorem c8_save_writes_checkpoint_witness :
    ∃ fs', save sessionW "/ckpt".data ⟨[], []⟩ = .ok fs' ∧
      "/ckpt".data ∈ fs'.dirs ∧
      fsLookup fs' "/ckpt".data (jsonFileName paramsName)
        = some (.jsonC [("A".data, .jInt 1), ("B".data, .jInt 2)] 4) ∧
      fsLookup fs' "/ckpt".data (pickleFileName "solver".data)
        = some (.pickleC .dNone) := by
  obtain ⟨fs', hok, hdir, hp1, _, _, _, hrl, _, _⟩ :=
    c8_save_writes_checkpoint sessionW "/ckpt".data ⟨[], []⟩
      [("B".data, .jInt 2), ("A".data, .jInt 1)] [] (fun _ => .vNone)
      rfl rfl sessionW_roles (fun _ _ => rfl)
  obtain ⟨d, hd, hl⟩ := hrl "solver".data (by decide)
  simp only [pickleEncV] at hd
  injection hd with hd'
  subst hd'
  refine ⟨fs', hok, hdir, ?_, hl⟩
  rw [hp1]
  have hs : sortPairs [("B".data, JScalar.jInt 2), ("A".data, JScalar.jInt 1)]
      = [("A".data, JScalar.jInt 1), ("B".data, JScalar.jInt 2)] := by decide
  rw [hs]

/-! ## Lifecycle claims C9 and C10 -/

/-- C9: `flush` removes all six role instances from the process-wide
registry — a subsequent lookup of any role finds nothing — and performs no
filesystem operation: the filesystem component of the process state is
untouched, so every previously written checkpoint directory is unchanged. -/
theorem c9_flush_clears_registry_no_fs (ps : ProcState) :
    (∀ r ∈ NAMES, lookupMod (flushProc ps).modules (modName r) = none) ∧
    (flushProc ps).fs = ps.fs := by
  refine ⟨fun r hr => ?_, rfl⟩
  show lookupMod (flush ps.modules) (modName r) = none
  rw [lookupMod_flush]
  exact if_pos (List.mem_map_of_mem modName hr)

/-- Closed instance of C9: a one-role registry alongside a checkpoint file. -/
theorem c9_flush_clears_registry_no_fs_witness :
    lookupMod (flushProc ⟨[(modName "solver".data, .objE .vNone)],
      ⟨["d".data], [(("d".data, "f".data), .pickleC .dNone)]⟩⟩).modules
      (modName "solver".data) = none ∧
    (flushProc ⟨[(modName "solver".data, .objE .vNone)],
      ⟨["d".data], [(("d".data, "f".data), .pickleC .dNone)]⟩⟩).fs
      = ⟨["d".data], [(("d".data, "f".data), .pickleC .dNone)]⟩ :=
  ⟨(c9_flush_clears_registry_no_fs _).1 "solver".data (by decide),
   (c9_flush_clears_registry_no_fs _).2⟩

/-- C10: `flush` deletes only the six role entries: the parameters and paths
entries (and any other `sys.modules` key) are left untouched, `flush` is
idempotent, and it succeeds on a session that was never assembled. -/
theorem c10_flush_config_frame_idempotent (st : SysModules) :
    lookupMod (flush st) paramsName = lookupMod st paramsName ∧
    lookupMod (flush st) pathsName = lookupMod st pathsName ∧
    (∀ n : Str, n ∉ roleModNames → lookupMod (flush st) n = lookupMod st n) ∧
    flush (flush st) = flush st ∧
    flush [] = [] := by
  have hframe : ∀ n : Str, n ∉ roleModNames →
      lookupMod (flush st) n = lookupMod st n := by
    intro n hn
    rw [lookupMod_flush, if_neg hn]
  refine ⟨hframe paramsName (by decide), hframe pathsName (by decide), hframe, ?_, rfl⟩
  rw [flush_eq_filter st, flush_eq_filter, List.filter_filter]
  apply List.filter_congr
  intro p _
  by_cases h : p.1 ∈ roleModNames <;> simp [h]

/-- Closed instance of C10: config survives, roles vanish, flush idempotent. -/
theorem c10_flush_config_frame_idempotent_witness :
    lookupMod (flush [(paramsName, .jsonE []), (modName "system".data, .objE .vNone)])
      paramsName
      = lookupMod [(paramsName, .jsonE []), (modName "system".data, .objE .vNone)]
          paramsName ∧
    lookupMod (flush [(paramsName, .jsonE []), (modName "system".data, .objE .vNone)])
      "other".data
      = lookupMod [(paramsName, .jsonE []), (modName "system".data, .objE .vNone)]
          "other".data ∧
    flush (flush [(paramsName, .jsonE []), (modName "system".data, .objE .vNone)])
      = flush [(paramsName, .jsonE []), (modName "system".data, .objE .vNone)] :=
  ⟨(c10_flush_config_frame_idempotent _).1,
   (c10_flush_config_frame_idempotent _).2.2.1 "other".data (by decide),
   (c10_flush_config_frame_idempotent _).2.2.2.1⟩

end Seisflows
